import Mathlib

/-!
Verification of the simplebank fund-transfer engine and its HTTP adapter.

The repository's database layer exposes a transactional transfer operation
(TransferTX) over three ledger entities (accounts, entries, transfers), and
the API layer wraps it in HTTP handlers.  This file gives a shallow
embedding of that data model and of the operations the specification talks
about, and proves (or refutes) the specified properties.

The `Db` namespace holds the ledger data model and the transfer engine.
The engine implementation file (store.go) is not part of the provided
sources, so the engine and the query layer are modelled from the
specification (sections 3, 4.1 and 6); each such definition carries a doc
comment saying so.  The `Api` namespace embeds the HTTP handlers from
api/transfer.go and the account-creation handler, which are present in the
sources and are translated directly.

Machine integers: account balances and amounts are 64-bit signed integers
in the store; they are modelled as `Int` together with an explicit range
check in the balance-update operation, mirroring the fact that the
underlying bigint column raises an error (and hence aborts the enclosing
transaction) instead of wrapping around.
-/

namespace Db

/-- Account row: modelled from the spec (section 3): id, owner, balance
(signed 64-bit), currency.  The created_at timestamp plays no role in any
verified property and is omitted. -/
structure Account where
  id : Int
  owner : String
  balance : Int
  currency : String
  deriving DecidableEq

/-- Entry row: modelled from the spec (section 3): one immutable
balance-affecting event for one account; amount may be negative. -/
structure Entry where
  id : Int
  accountId : Int
  amount : Int
  deriving DecidableEq

/-- Transfer row: modelled from the spec (section 3): the immutable record
of a requested money movement. -/
structure Transfer where
  id : Int
  fromAccountId : Int
  toAccountId : Int
  amount : Int
  deriving DecidableEq

/-- The committed state of the ledger store: the three tables, plus the
identity counters that produce fresh row ids. -/
structure DB where
  accounts : List Account
  entries : List Entry
  transfers : List Transfer
  nextAccountId : Int
  nextEntryId : Int
  nextTransferId : Int
  deriving DecidableEq

/-- Error taxonomy, modelled from the spec (section 7). -/
inductive TxError where
  | AccountNotFound
  | InvalidTransfer
  | PersistenceError
  deriving DecidableEq

/-- Parameters of the transfer operation (TransferTxParams in the source
tests). -/
structure TransferTxParams where
  fromAccountID : Int
  toAccountID : Int
  amount : Int
  deriving DecidableEq

/-- Result of a successful transfer (TransferTxResult in the source
tests): the transfer row, the two entry rows and the two post-update
account snapshots. -/
structure TransferTxResult where
  transfer : Transfer
  fromEntry : Entry
  toEntry : Entry
  fromAccount : Account
  toAccount : Account
  deriving DecidableEq

/-- Smallest value of a signed 64-bit integer (bigint column). -/
def minInt64 : Int := -(2 ^ 63)

/-- Largest value of a signed 64-bit integer (bigint column). -/
def maxInt64 : Int := 2 ^ 63 - 1

/-- Look an account up by primary key (select by id). -/
def findAccount : List Account → Int → Option Account
  | [], _ => none
  | a :: rest, id => if a.id = id then some a else findAccount rest id

/-- Modelled from the spec: GetAccount(id) returns the account row or
NotFound (here: none). -/
def getAccount (db : DB) (id : Int) : Option Account :=
  findAccount db.accounts id

/-- Apply a relative balance increment to the account with the given id,
leaving every other row unchanged. -/
def updateBalance (accounts : List Account) (id delta : Int) : List Account :=
  accounts.map fun a => if a.id = id then { a with balance := a.balance + delta } else a

/-- Modelled from the spec: AddAccountBalance(id, delta) performs an
atomic relative increment under lock and returns the updated account.  A
missing row surfaces as AccountNotFound; a result outside the bigint
range raises a store error (PersistenceError), as the bigint column does
not wrap around. -/
def addAccountBalance (db : DB) (id delta : Int) : Except TxError (Account × DB) :=
  match getAccount db id with
  | none => Except.error TxError.AccountNotFound
  | some a =>
    if minInt64 ≤ a.balance + delta ∧ a.balance + delta ≤ maxInt64 then
      Except.ok ({ a with balance := a.balance + delta },
        { db with accounts := updateBalance db.accounts id delta })
    else
      Except.error TxError.PersistenceError

/-- Modelled from the spec: CreateEntry(accountID, amount) inserts an
entry row with a fresh identity. -/
def createEntry (db : DB) (accountId amount : Int) : Entry × DB :=
  let e : Entry := ⟨db.nextEntryId, accountId, amount⟩
  (e, { db with entries := db.entries ++ [e], nextEntryId := db.nextEntryId + 1 })

/-- Modelled from the spec: CreateTransfer(fromID, toID, amount) inserts a
transfer row with a fresh identity. -/
def createTransfer (db : DB) (fromId toId amount : Int) : Transfer × DB :=
  let tr : Transfer := ⟨db.nextTransferId, fromId, toId, amount⟩
  (tr, { db with transfers := db.transfers ++ [tr], nextTransferId := db.nextTransferId + 1 })

/-- Modelled from the spec (section 4.1, step 5): the two balance updates
of a transfer are performed in deterministic account-ID order — the lower
account id first, then the higher one, regardless of which is the source
and which the destination.  Each element is (account id, delta). -/
def balanceUpdateOrder (p : TransferTxParams) : List (Int × Int) :=
  if p.fromAccountID < p.toAccountID then
    [(p.fromAccountID, -p.amount), (p.toAccountID, p.amount)]
  else
    [(p.toAccountID, p.amount), (p.fromAccountID, -p.amount)]

/-- Run a list of balance updates in order, stopping at the first store
error. -/
def applyBalanceUpdates (db : DB) : List (Int × Int) → Except TxError DB
  | [] => Except.ok db
  | (id, delta) :: rest =>
    match addAccountBalance db id delta with
    | Except.error e => Except.error e
    | Except.ok (_, db1) => applyBalanceUpdates db1 rest

/-- Modelled from the spec (section 4.1, steps 2-6): the body of the
transfer transaction.  Insert the transfer row, the debit entry
(-amount) for the source, the credit entry (+amount) for the destination,
update the two balances in account-ID order, then read back both updated
rows for the result snapshot.  Any error aborts the whole body. -/
def transferTxBody (db : DB) (p : TransferTxParams) : Except TxError (TransferTxResult × DB) :=
  let (transfer, db1) := createTransfer db p.fromAccountID p.toAccountID p.amount
  let (fromEntry, db2) := createEntry db1 p.fromAccountID (-p.amount)
  let (toEntry, db3) := createEntry db2 p.toAccountID p.amount
  match applyBalanceUpdates db3 (balanceUpdateOrder p) with
  | Except.error e => Except.error e
  | Except.ok db4 =>
    match getAccount db4 p.fromAccountID, getAccount db4 p.toAccountID with
    | some fromAccount, some toAccount =>
      Except.ok (⟨transfer, fromEntry, toEntry, fromAccount, toAccount⟩, db4)
    | _, _ => Except.error TxError.AccountNotFound

/-- Modelled from the spec (sections 4.1 and 6): TransferTX runs the body
inside one transaction — commit on success, rollback on any failure, so
the committed state after a failed call is the state before the call.
The first component is the outcome returned to the caller, the second the
committed database state. -/
def TransferTX (db : DB) (p : TransferTxParams) : Except TxError TransferTxResult × DB :=
  match transferTxBody db p with
  | Except.ok (res, db1) => (Except.ok res, db1)
  | Except.error e => (Except.error e, db)

/-- Committed state after a sequence of transfer invocations (failed
invocations leave the state unchanged). -/
def execAll (db : DB) (ps : List TransferTxParams) : DB :=
  ps.foldl (fun d p => (TransferTX d p).2) db

/-- Outcomes and final committed state of a sequence of transfer
invocations, in invocation order. -/
def execAllResults : DB → List TransferTxParams → List (Except TxError TransferTxResult) × DB
  | db, [] => ([], db)
  | db, p :: rest =>
    let r := TransferTX db p
    let rest1 := execAllResults r.2 rest
    (r.1 :: rest1.1, rest1.2)

/-- Signed sum of the amounts of the entries referencing the given
account. -/
def entrySum : List Entry → Int → Int
  | [], _ => 0
  | e :: rest, accountId =>
    (if e.accountId = accountId then e.amount else 0) + entrySum rest accountId

/-- The ledger invariant of the spec (sections 3 and 8): every account's
balance equals the signed sum of the entries referencing it. -/
def balancesMatchEntries (db : DB) : Prop :=
  ∀ a ∈ db.accounts, a.balance = entrySum db.entries a.id

instance (db : DB) : Decidable (balancesMatchEntries db) := by
  unfold balancesMatchEntries
  infer_instance

/-- How many times a given parameter record occurs in a list of requests. -/
def countParam (q : TransferTxParams) : List TransferTxParams → Nat
  | [] => 0
  | p :: rest => (if p = q then 1 else 0) + countParam q rest

/-- Iterated relative balance updates, in list order. -/
def updateMany : List Account → List (Int × Int) → List Account
  | l, [] => l
  | l, (id, delta) :: rest => updateMany (updateBalance l id delta) rest

/-- Parameters of the account-creation query (CreateAccountParams in
db/sqlc), as built by the API handler: owner, currency, balance. -/
structure CreateAccountParams where
  owner : String
  currency : String
  balance : Int
  deriving DecidableEq

/-- Modelled from the spec (section 3): CreateAccount inserts an account
row with a fresh identity; the uniqueness constraint on (owner, currency)
rejects a duplicate pair with a store error. -/
def createAccount (db : DB) (p : CreateAccountParams) : Except TxError (Account × DB) :=
  if db.accounts.any fun a => a.owner == p.owner && a.currency == p.currency then
    Except.error TxError.PersistenceError
  else
    let a : Account := ⟨db.nextAccountId, p.owner, p.balance, p.currency⟩
    Except.ok (a, { db with accounts := db.accounts ++ [a], nextAccountId := db.nextAccountId + 1 })

end Db

namespace Util

/-- From db/util/currency.go: IsSupportedCurrency returns true exactly
for the three supported currency codes. -/
def IsSupportedCurrency (currency : String) : Bool :=
  currency == "USD" || currency == "EUR" || currency == "CAD"

end Util

namespace Api

open Db

/-- The body of a POST /transfers request (transferRequest in
api/transfer.go): from-account id, to-account id, amount, currency. -/
structure TransferRequest where
  fromAccountID : Int
  toAccountID : Int
  amount : Int
  currency : String
  deriving DecidableEq

/-- HTTP status classes the handlers produce. -/
inductive ApiStatus where
  | ok
  | badRequest
  | notFound
  | unauthorized
  | forbidden
  | internalError
  deriving DecidableEq

/-- Observable outcome of one run of the transfer handler: the response
status, the response body on success, the committed database state, and
the parameters the engine was invoked with (none when TransferTX was
never called). -/
structure TransferHandlerOutcome where
  status : ApiStatus
  result : Option TransferTxResult
  db : DB
  engineCall : Option TransferTxParams
  deriving DecidableEq

/-- From api/transfer.go: the binding tags of transferRequest.  Both
account ids are required with min=1, the amount must be strictly
positive (gt=0), and the currency must pass the registered custom
validator (api/validator.go), i.e. be a supported currency. -/
def bindingValid (req : TransferRequest) : Prop :=
  1 ≤ req.fromAccountID ∧ 1 ≤ req.toAccountID ∧ 0 < req.amount ∧
    Util.IsSupportedCurrency req.currency = true

instance (req : TransferRequest) : Decidable (bindingValid req) := by
  unfold bindingValid
  infer_instance

/-- From api/transfer.go: validAccount confirms the account exists (else
404 not found) and that its currency matches the request currency (else
400 bad request); the pure store model has no other failure path, so the
internal-error branch of the source is unreachable here. -/
def validAccount (db : DB) (accountID : Int) (currency : String) : Except ApiStatus Account :=
  match getAccount db accountID with
  | none => Except.error ApiStatus.notFound
  | some account =>
    if account.currency ≠ currency then Except.error ApiStatus.badRequest
    else Except.ok account

/-- From api/transfer.go: the createTransfer handler.  Bind and validate
the request body, validate the from-account (existence and currency),
check that the authenticated user owns the from-account, validate the
to-account, then call TransferTX; an engine error surfaces as an
internal error, success as 200 with the result. -/
def createTransfer (db : DB) (req : TransferRequest) (authUsername : String) :
    TransferHandlerOutcome :=
  if ¬ bindingValid req then ⟨ApiStatus.badRequest, none, db, none⟩
  else
    match validAccount db req.fromAccountID req.currency with
    | Except.error st => ⟨st, none, db, none⟩
    | Except.ok fromAccount =>
      if fromAccount.owner ≠ authUsername then ⟨ApiStatus.unauthorized, none, db, none⟩
      else
        match validAccount db req.toAccountID req.currency with
        | Except.error st => ⟨st, none, db, none⟩
        | Except.ok _ =>
          let arg : TransferTxParams := ⟨req.fromAccountID, req.toAccountID, req.amount⟩
          match TransferTX db arg with
          | (Except.ok res, db1) => ⟨ApiStatus.ok, some res, db1, some arg⟩
          | (Except.error _, db1) => ⟨ApiStatus.internalError, none, db1, some arg⟩

/-- Observable outcome of one run of the account-creation handler: the
response status, the created account on success, the committed database
state, and the parameters passed to the store's CreateAccount (none when
it was never called). -/
structure AccountHandlerOutcome where
  status : ApiStatus
  result : Option Account
  db : DB
  createCall : Option CreateAccountParams
  deriving DecidableEq

/-- From the api createAccount handler: the request body can only supply
the currency (createAccountRequest has a single field with binding tags
required,currency); the handler builds CreateAccountParams with the
authenticated username as owner and balance 0, and maps a constraint
violation from the store to 403 forbidden. -/
def createAccountHandler (db : DB) (reqCurrency : String) (authUsername : String) :
    AccountHandlerOutcome :=
  if ¬ Util.IsSupportedCurrency reqCurrency then ⟨ApiStatus.badRequest, none, db, none⟩
  else
    let arg : CreateAccountParams := ⟨authUsername, reqCurrency, 0⟩
    match Db.createAccount db arg with
    | Except.error _ => ⟨ApiStatus.forbidden, none, db, some arg⟩
    | Except.ok (account, db1) => ⟨ApiStatus.ok, some account, db1, some arg⟩

end Api

namespace Db

/-- Concrete two-account store used to exercise the engine theorems. -/
def sampleDb : DB :=
  ⟨[⟨1, "alice", 100, "USD"⟩, ⟨2, "bob", 50, "USD"⟩], [], [], 3, 1, 1⟩

/-- The result of the sample transfer of 10 from account 1 to account 2. -/
def sampleOkRes : TransferTxResult :=
  ⟨⟨1, 1, 2, 10⟩, ⟨1, 1, -10⟩, ⟨2, 2, 10⟩, ⟨1, "alice", 90, "USD"⟩, ⟨2, "bob", 60, "USD"⟩⟩

/-- The committed store after the sample transfer of 10 from account 1 to
account 2. -/
def sampleOkDb : DB :=
  ⟨[⟨1, "alice", 90, "USD"⟩, ⟨2, "bob", 60, "USD"⟩], [⟨1, 1, -10⟩, ⟨2, 2, 10⟩],
    [⟨1, 1, 2, 10⟩], 3, 3, 2⟩

/-- Concrete store whose balances match its entries. -/
def ledgerDb : DB :=
  ⟨[⟨1, "alice", 30, "USD"⟩, ⟨2, "bob", -5, "USD"⟩], [⟨1, 1, 30⟩, ⟨2, 2, -5⟩], [], 3, 3, 1⟩

end Db

namespace Api

open Db

/-- Store with a single account owned by alice, used by the
transfer-handler theorems. -/
def apiDbSelf : DB := ⟨[⟨1, "alice", 100, "USD"⟩], [], [], 2, 1, 1⟩

/-- Store with two accounts of different owners and currencies. -/
def apiDbMixed : DB :=
  ⟨[⟨1, "bob", 100, "USD"⟩, ⟨2, "carol", 50, "EUR"⟩], [], [], 3, 1, 1⟩

end Api

namespace Db

theorem findAccount_eq_id : ∀ (l : List Account) (q : Int) (a : Account),
    findAccount l q = some a → a.id = q
  | [], q, a, h => by simp [findAccount] at h
  | b :: rest, q, a, h => by
    by_cases hb : b.id = q
    · rw [findAccount, if_pos hb] at h
      injection h with h1
      rw [← h1]
      exact hb
    · rw [findAccount, if_neg hb] at h
      exact findAccount_eq_id rest q a h

theorem findAccount_updateBalance (l : List Account) (id delta q : Int) :
    findAccount (updateBalance l id delta) q =
      (findAccount l q).map fun a =>
        if a.id = id then { a with balance := a.balance + delta } else a := by
  induction l with
  | nil => rfl
  | cons b rest ih =>
    have hid : (if b.id = id then { b with balance := b.balance + delta } else b).id = b.id := by
      split <;> rfl
    show findAccount ((if b.id = id then { b with balance := b.balance + delta } else b) ::
        updateBalance rest id delta) q = _
    by_cases hb : b.id = q
    · rw [findAccount, if_pos (hid.trans hb), findAccount, if_pos hb, Option.map_some']
    · rw [findAccount, if_neg (fun hc => hb (hid.symm.trans hc)), findAccount, if_neg hb, ih]

theorem findAccount_updateBalance_ne (l : List Account) (id delta q : Int) (h : q ≠ id) :
    findAccount (updateBalance l id delta) q = findAccount l q := by
  rw [findAccount_updateBalance]
  cases hfa : findAccount l q with
  | none => rfl
  | some a =>
    have ha : a.id = q := findAccount_eq_id l q a hfa
    rw [Option.map_some', if_neg (by rw [ha]; exact h)]

theorem findAccount_updateBalance_self (l : List Account) (id delta : Int) :
    findAccount (updateBalance l id delta) id =
      (findAccount l id).map fun a => { a with balance := a.balance + delta } := by
  rw [findAccount_updateBalance]
  cases hfa : findAccount l id with
  | none => rfl
  | some a =>
    have ha : a.id = id := findAccount_eq_id l id a hfa
    rw [Option.map_some', Option.map_some', if_pos ha]

theorem addAccountBalance_ok_inv {db : DB} {id delta : Int} {a1 : Account} {db1 : DB}
    (h : addAccountBalance db id delta = Except.ok (a1, db1)) :
    db1 = { db with accounts := updateBalance db.accounts id delta } := by
  unfold addAccountBalance at h
  split at h
  · exact absurd h (by simp)
  · split at h
    · injection h with h1
      injection h1 with h2 h3
      exact h3.symm
    · exact absurd h (by simp)

theorem addAccountBalance_ok_of {db : DB} {id delta : Int} {a : Account}
    (hga : getAccount db id = some a)
    (h1 : minInt64 ≤ a.balance + delta) (h2 : a.balance + delta ≤ maxInt64) :
    addAccountBalance db id delta =
      Except.ok ({ a with balance := a.balance + delta },
        { db with accounts := updateBalance db.accounts id delta }) := by
  simp only [addAccountBalance, hga]
  rw [if_pos ⟨h1, h2⟩]

theorem applyBalanceUpdates_ok : ∀ (us : List (Int × Int)) (db db2 : DB),
    applyBalanceUpdates db us = Except.ok db2 →
    db2 = { db with accounts := updateMany db.accounts us }
  | [], db, db2, h => by
    unfold applyBalanceUpdates at h
    injection h with h1
    rw [← h1]
    rfl
  | (id, delta) :: rest, db, db2, h => by
    unfold applyBalanceUpdates at h
    cases hadd : addAccountBalance db id delta with
    | error e => rw [hadd] at h; exact absurd h (by simp)
    | ok pair =>
      obtain ⟨a1, db1⟩ := pair
      rw [hadd] at h
      have hdb1 : db1 = { db with accounts := updateBalance db.accounts id delta } :=
        addAccountBalance_ok_inv hadd
      have hrec := applyBalanceUpdates_ok rest db1 db2 h
      rw [hrec, hdb1]
      rfl

end Db

namespace Db

theorem transferTxBody_ok_shape {db : DB} {p : TransferTxParams} {res : TransferTxResult}
    {db2 : DB} (h : transferTxBody db p = Except.ok (res, db2)) :
    db2.accounts = updateMany db.accounts (balanceUpdateOrder p) ∧
    db2.entries = db.entries ++ [⟨db.nextEntryId, p.fromAccountID, -p.amount⟩,
      ⟨db.nextEntryId + 1, p.toAccountID, p.amount⟩] ∧
    db2.transfers = db.transfers ++
      [⟨db.nextTransferId, p.fromAccountID, p.toAccountID, p.amount⟩] ∧
    res.fromEntry = ⟨db.nextEntryId, p.fromAccountID, -p.amount⟩ ∧
    res.toEntry = ⟨db.nextEntryId + 1, p.toAccountID, p.amount⟩ ∧
    res.transfer = ⟨db.nextTransferId, p.fromAccountID, p.toAccountID, p.amount⟩ ∧
    getAccount db2 p.fromAccountID = some res.fromAccount ∧
    getAccount db2 p.toAccountID = some res.toAccount := by
  unfold transferTxBody createTransfer createEntry at h
  simp only [] at h
  split at h
  · exact absurd h (by simp)
  · rename_i db4 happ
    split at h
    · rename_i fromAccount toAccount hfrom hto
      injection h with h1
      injection h1 with hres hdb
      have hdb4 := applyBalanceUpdates_ok _ _ _ happ
      subst hdb
      subst hres
      rw [hdb4]
      refine ⟨rfl, by simp, by simp, rfl, rfl, rfl, ?_, ?_⟩
      · rw [← hdb4]; exact hfrom
      · rw [← hdb4]; exact hto
    · exact absurd h (by simp)

end Db

namespace Db

theorem transferTX_ok_inv {db : DB} {p : TransferTxParams} {res : TransferTxResult} {db2 : DB}
    (h : TransferTX db p = (Except.ok res, db2)) :
    transferTxBody db p = Except.ok (res, db2) := by
  unfold TransferTX at h
  split at h
  · rename_i r d heq
    injection h with h1 h2
    injection h1 with h3
    rw [heq, h3, h2]
  · rename_i e heq
    injection h with h1 h2
    exact absurd h1 (by simp)

/-- Claim C2: if TransferTX returns an error, the committed state —
accounts, entries, transfers — is identical to the state immediately
before the call: no transfer row, no entry row and no balance change is
committed on any failure path. -/
theorem transferTX_atomicity (db : DB) (p : TransferTxParams) (e : TxError)
    (h : (TransferTX db p).1 = Except.error e) :
    ((TransferTX db p).2).accounts = db.accounts ∧
    ((TransferTX db p).2).entries = db.entries ∧
    ((TransferTX db p).2).transfers = db.transfers ∧
    (TransferTX db p).2 = db := by
  cases hbody : transferTxBody db p with
  | ok pair =>
    obtain ⟨r, d⟩ := pair
    simp only [TransferTX, hbody] at h
    exact absurd h (by simp)
  | error e1 =>
    refine ⟨?_, ?_, ?_, ?_⟩ <;> simp [TransferTX, hbody]

/-- Witness for the atomicity theorem: a concrete call that fails because
the destination account does not exist leaves the store untouched. -/
theorem transferTX_atomicity_witness :
    (TransferTX sampleDb ⟨1, 3, 10⟩).2 = sampleDb :=
  (transferTX_atomicity sampleDb ⟨1, 3, 10⟩ TxError.AccountNotFound (by rfl)).2.2.2

/-- Claim C5: for any pair of distinct accounts, the lock-and-update
sequence of a transfer operates on the lower account id first and the
higher one second, regardless of which account is the source; the order
function is the one and only order used by the engine body. -/
theorem transferTX_lock_order (p : TransferTxParams) (h : p.fromAccountID ≠ p.toAccountID) :
    (balanceUpdateOrder p).map Prod.fst =
      [min p.fromAccountID p.toAccountID, max p.fromAccountID p.toAccountID] := by
  unfold balanceUpdateOrder
  by_cases hlt : p.fromAccountID < p.toAccountID
  · rw [if_pos hlt]
    simp [min_eq_left (le_of_lt hlt), max_eq_right (le_of_lt hlt)]
  · rw [if_neg hlt]
    have hle : p.toAccountID ≤ p.fromAccountID := le_of_not_lt hlt
    simp [min_eq_right hle, max_eq_left hle]

/-- Witness for the lock-order theorem with the source id above the
destination id. -/
theorem transferTX_lock_order_witness :
    (balanceUpdateOrder ⟨5, 2, 10⟩).map Prod.fst = [min (5 : Int) 2, max (5 : Int) 2] :=
  transferTX_lock_order ⟨5, 2, 10⟩ (by decide)

/-- Claim C4: a successful transfer inserts exactly two entry rows — a
debit entry for the source account with amount -X and a credit entry for
the destination account with amount +X — and the returned result carries
those two entries with those exact amounts and account ids. -/
theorem transferTX_two_entries (db : DB) (p : TransferTxParams) (res : TransferTxResult)
    (db2 : DB) (h : TransferTX db p = (Except.ok res, db2)) :
    db2.entries = db.entries ++ [res.fromEntry, res.toEntry] ∧
    res.fromEntry.accountId = p.fromAccountID ∧
    res.fromEntry.amount = -p.amount ∧
    res.toEntry.accountId = p.toAccountID ∧
    res.toEntry.amount = p.amount := by
  obtain ⟨hacc, hent, htr, hfe, hte, htrr, hfrom, hto⟩ :=
    transferTxBody_ok_shape (transferTX_ok_inv h)
  refine ⟨?_, ?_, ?_, ?_, ?_⟩
  · rw [hent, hfe, hte]
  · rw [hfe]
  · rw [hfe]
  · rw [hte]
  · rw [hte]

/-- Witness for the two-entries theorem at the sample transfer. -/
theorem transferTX_two_entries_witness :
    sampleOkDb.entries = sampleDb.entries ++ [sampleOkRes.fromEntry, sampleOkRes.toEntry] ∧
    sampleOkRes.fromEntry.accountId = 1 ∧
    sampleOkRes.fromEntry.amount = -10 ∧
    sampleOkRes.toEntry.accountId = 2 ∧
    sampleOkRes.toEntry.amount = 10 :=
  transferTX_two_entries sampleDb ⟨1, 2, 10⟩ sampleOkRes sampleOkDb (by rfl)

end Db

namespace Db

/-- Claim C1: for every successful transfer of amount X from account F to
account T with F ≠ T, the committed balance of F equals its pre-transfer
balance minus X, the committed balance of T equals its pre-transfer
balance plus X, and the sum of the two balances is unchanged by the
operation. -/
theorem transferTX_conservation (db : DB) (p : TransferTxParams) (res : TransferTxResult)
    (db2 : DB) (f t : Account)
    (hok : TransferTX db p = (Except.ok res, db2))
    (hne : p.fromAccountID ≠ p.toAccountID)
    (hf : getAccount db p.fromAccountID = some f)
    (ht : getAccount db p.toAccountID = some t) :
    getAccount db2 p.fromAccountID = some res.fromAccount ∧
    getAccount db2 p.toAccountID = some res.toAccount ∧
    res.fromAccount.balance = f.balance - p.amount ∧
    res.toAccount.balance = t.balance + p.amount ∧
    res.fromAccount.balance + res.toAccount.balance = f.balance + t.balance := by
  obtain ⟨hacc, -, -, -, -, -, hfrom, hto⟩ := transferTxBody_ok_shape (transferTX_ok_inv hok)
  unfold getAccount at hf ht
  have hfrom2 : getAccount db2 p.fromAccountID =
      some { f with balance := f.balance + -p.amount } := by
    unfold getAccount
    rw [hacc]
    unfold balanceUpdateOrder
    by_cases hlt : p.fromAccountID < p.toAccountID
    · rw [if_pos hlt]
      show findAccount (updateBalance
        (updateBalance db.accounts p.fromAccountID (-p.amount))
        p.toAccountID p.amount) p.fromAccountID = _
      rw [findAccount_updateBalance_ne _ _ _ _ hne, findAccount_updateBalance_self, hf,
        Option.map_some']
    · rw [if_neg hlt]
      show findAccount (updateBalance
        (updateBalance db.accounts p.toAccountID p.amount)
        p.fromAccountID (-p.amount)) p.fromAccountID = _
      rw [findAccount_updateBalance_self, findAccount_updateBalance_ne _ _ _ _ hne, hf,
        Option.map_some']
  have hto2 : getAccount db2 p.toAccountID =
      some { t with balance := t.balance + p.amount } := by
    unfold getAccount
    rw [hacc]
    unfold balanceUpdateOrder
    by_cases hlt : p.fromAccountID < p.toAccountID
    · rw [if_pos hlt]
      show findAccount (updateBalance
        (updateBalance db.accounts p.fromAccountID (-p.amount))
        p.toAccountID p.amount) p.toAccountID = _
      rw [findAccount_updateBalance_self, findAccount_updateBalance_ne _ _ _ _ hne.symm, ht,
        Option.map_some']
    · rw [if_neg hlt]
      show findAccount (updateBalance
        (updateBalance db.accounts p.toAccountID p.amount)
        p.fromAccountID (-p.amount)) p.toAccountID = _
      rw [findAccount_updateBalance_ne _ _ _ _ hne.symm, findAccount_updateBalance_self, ht,
        Option.map_some']
  rw [hfrom] at hfrom2
  rw [hto] at hto2
  injection hfrom2 with hfa
  injection hto2 with hta
  refine ⟨hfrom, hto, ?_, ?_, ?_⟩
  · rw [hfa]; show f.balance + -p.amount = f.balance - p.amount; omega
  · rw [hta]
  · rw [hfa, hta]; show f.balance + -p.amount + (t.balance + p.amount) = _; omega

/-- Witness for the conservation theorem at the sample transfer of 10
from account 1 (balance 100) to account 2 (balance 50). -/
theorem transferTX_conservation_witness :
    getAccount sampleOkDb 1 = some sampleOkRes.fromAccount ∧
    getAccount sampleOkDb 2 = some sampleOkRes.toAccount ∧
    sampleOkRes.fromAccount.balance = 100 - 10 ∧
    sampleOkRes.toAccount.balance = 50 + 10 ∧
    sampleOkRes.fromAccount.balance + sampleOkRes.toAccount.balance = 100 + 50 :=
  transferTX_conservation sampleDb ⟨1, 2, 10⟩ sampleOkRes sampleOkDb
    ⟨1, "alice", 100, "USD"⟩ ⟨2, "bob", 50, "USD"⟩ (by rfl) (by decide) (by rfl) (by rfl)

end Db

namespace Db

theorem entrySum_append (l1 l2 : List Entry) (i : Int) :
    entrySum (l1 ++ l2) i = entrySum l1 i + entrySum l2 i := by
  induction l1 with
  | nil => simp [entrySum]
  | cons e rest ih => simp [entrySum, ih, add_assoc]

theorem mem_updateBalance {l : List Account} {a2 : Account} (id delta : Int)
    (h : a2 ∈ updateBalance l id delta) :
    ∃ a ∈ l, a2 = if a.id = id then { a with balance := a.balance + delta } else a := by
  unfold updateBalance at h
  obtain ⟨a, ha, he⟩ := List.mem_map.mp h
  exact ⟨a, ha, he.symm⟩

theorem updateBalance_val {l : List Account} {a2 : Account} (t d : Int)
    (h : a2 ∈ updateBalance l t d) :
    ∃ a ∈ l, a2.id = a.id ∧ a2.balance = a.balance + (if a.id = t then d else 0) := by
  obtain ⟨a, ha, he⟩ := mem_updateBalance t d h
  by_cases h1 : a.id = t
  · rw [if_pos h1] at he
    exact ⟨a, ha, by rw [he], by rw [he, if_pos h1]⟩
  · rw [if_neg h1] at he
    exact ⟨a, ha, by rw [he], by rw [he, if_neg h1, add_zero]⟩

theorem updateBalance_twice_val {l : List Account} {a2 : Account} (t1 d1 t2 d2 : Int)
    (h : a2 ∈ updateBalance (updateBalance l t1 d1) t2 d2) :
    ∃ a ∈ l, a2.id = a.id ∧
      a2.balance = a.balance + (if a.id = t1 then d1 else 0) + (if a.id = t2 then d2 else 0) := by
  obtain ⟨a1, ha1, hid2, hbal2⟩ := updateBalance_val t2 d2 h
  obtain ⟨a, ha, hid1, hbal1⟩ := updateBalance_val t1 d1 ha1
  refine ⟨a, ha, hid2.trans hid1, ?_⟩
  rw [hbal2, hbal1, hid1]

theorem transferTX_preserves_invariant (db : DB) (p : TransferTxParams)
    (h : balancesMatchEntries db) : balancesMatchEntries (TransferTX db p).2 := by
  cases hbody : transferTxBody db p with
  | error e => simpa only [TransferTX, hbody] using h
  | ok pair =>
    obtain ⟨res, db2⟩ := pair
    obtain ⟨hacc, hent, -, -, -, -, -, -⟩ := transferTxBody_ok_shape hbody
    simp only [TransferTX, hbody]
    intro a2 ha2
    rw [hacc] at ha2
    rw [hent, entrySum_append]
    unfold balanceUpdateOrder at ha2
    by_cases hlt : p.fromAccountID < p.toAccountID
    · rw [if_pos hlt] at ha2
      obtain ⟨a, ha, hid, hbal⟩ := updateBalance_twice_val _ _ _ _ ha2
      have hbase := h a ha
      rw [hid, hbal, hbase]
      simp only [entrySum]
      by_cases hf1 : a.id = p.fromAccountID <;> by_cases ht1 : a.id = p.toAccountID <;>
        simp [hf1, ht1] <;> omega
    · rw [if_neg hlt] at ha2
      obtain ⟨a, ha, hid, hbal⟩ := updateBalance_twice_val _ _ _ _ ha2
      have hbase := h a ha
      rw [hid, hbal, hbase]
      simp only [entrySum]
      by_cases hf1 : a.id = p.fromAccountID <;> by_cases ht1 : a.id = p.toAccountID <;>
        simp [hf1, ht1] <;> omega

/-- Claim C3: the committed balance of every account equals the signed
sum of the amounts of the entries referencing it; starting from any store
satisfying this predicate, any sequence of transfer invocations — each
one an operation of the engine, committed or rolled back — preserves it
at every committed point. -/
theorem execAll_preserves_invariant (db : DB) (ps : List TransferTxParams)
    (h : balancesMatchEntries db) : balancesMatchEntries (execAll db ps) := by
  induction ps generalizing db with
  | nil => exact h
  | cons p rest ih => exact ih _ (transferTX_preserves_invariant db p h)

/-- Witness for the invariant-preservation theorem on a concrete ledger
and two transfers. -/
theorem execAll_preserves_invariant_witness :
    balancesMatchEntries (execAll ledgerDb [⟨1, 2, 7⟩, ⟨2, 1, 3⟩]) :=
  execAll_preserves_invariant ledgerDb [⟨1, 2, 7⟩, ⟨2, 1, 3⟩] (by decide)

end Db

namespace Db

theorem applyBalanceUpdates_pair_ok (db0 : DB) (i1 d1 i2 d2 : Int) (a1 a2 : Account)
    (h1 : findAccount db0.accounts i1 = some a1)
    (hb1 : minInt64 ≤ a1.balance + d1) (hb2 : a1.balance + d1 ≤ maxInt64)
    (hne : i2 ≠ i1)
    (h2 : findAccount db0.accounts i2 = some a2)
    (hb3 : minInt64 ≤ a2.balance + d2) (hb4 : a2.balance + d2 ≤ maxInt64) :
    applyBalanceUpdates db0 [(i1, d1), (i2, d2)] =
      Except.ok { db0 with
        accounts := updateBalance (updateBalance db0.accounts i1 d1) i2 d2 } := by
  have h2' : getAccount { db0 with accounts := updateBalance db0.accounts i1 d1 } i2 =
      some a2 := by
    show findAccount (updateBalance db0.accounts i1 d1) i2 = some a2
    rw [findAccount_updateBalance_ne _ _ _ _ hne]
    exact h2
  unfold applyBalanceUpdates
  rw [addAccountBalance_ok_of (show getAccount db0 i1 = some a1 from h1) hb1 hb2]
  show applyBalanceUpdates { db0 with accounts := updateBalance db0.accounts i1 d1 }
    [(i2, d2)] = _
  unfold applyBalanceUpdates
  rw [addAccountBalance_ok_of h2' hb3 hb4]
  rfl

theorem applyBalanceUpdates_pair_not_error {db0 : DB} {i1 d1 i2 d2 : Int} {e : TxError}
    (heq : applyBalanceUpdates db0 [(i1, d1), (i2, d2)] = Except.error e)
    {a1 a2 : Account}
    (h1 : findAccount db0.accounts i1 = some a1)
    (hb1 : minInt64 ≤ a1.balance + d1) (hb2 : a1.balance + d1 ≤ maxInt64)
    (hne : i2 ≠ i1)
    (h2 : findAccount db0.accounts i2 = some a2)
    (hb3 : minInt64 ≤ a2.balance + d2) (hb4 : a2.balance + d2 ≤ maxInt64) : False := by
  rw [applyBalanceUpdates_pair_ok db0 i1 d1 i2 d2 a1 a2 h1 hb1 hb2 hne h2 hb3 hb4] at heq
  exact absurd heq (by simp)

theorem transferTX_ok_of (db : DB) (F T X : Int) (f t : Account)
    (hFT : F ≠ T) (hf : getAccount db F = some f) (ht : getAccount db T = some t)
    (h1 : minInt64 ≤ f.balance - X) (h2 : f.balance - X ≤ maxInt64)
    (h3 : minInt64 ≤ t.balance + X) (h4 : t.balance + X ≤ maxInt64) :
    (∃ res, (TransferTX db ⟨F, T, X⟩).1 = Except.ok res) ∧
    getAccount (TransferTX db ⟨F, T, X⟩).2 F = some { f with balance := f.balance - X } ∧
    getAccount (TransferTX db ⟨F, T, X⟩).2 T = some { t with balance := t.balance + X } := by
  have hfb : minInt64 ≤ f.balance + -X := by omega
  have hfb2 : f.balance + -X ≤ maxInt64 := by omega
  have hsub : f.balance - X = f.balance + -X := by omega
  rw [hsub]
  cases hbody : transferTxBody db ⟨F, T, X⟩ with
  | ok pair =>
    obtain ⟨res, db2⟩ := pair
    obtain ⟨hacc, -, -, -, -, -, hfrom, hto⟩ := transferTxBody_ok_shape hbody
    have hfind_f : getAccount db2 F = some { f with balance := f.balance + -X } := by
      unfold getAccount
      rw [hacc]
      unfold balanceUpdateOrder
      by_cases hlt : F < T
      · rw [if_pos hlt]
        show findAccount (updateBalance (updateBalance db.accounts F (-X)) T X) F = _
        rw [findAccount_updateBalance_ne _ _ _ _ hFT, findAccount_updateBalance_self,
          (show findAccount db.accounts F = some f from hf), Option.map_some']
      · rw [if_neg hlt]
        show findAccount (updateBalance (updateBalance db.accounts T X) F (-X)) F = _
        rw [findAccount_updateBalance_self, findAccount_updateBalance_ne _ _ _ _ hFT,
          (show findAccount db.accounts F = some f from hf), Option.map_some']
    have hfind_t : getAccount db2 T = some { t with balance := t.balance + X } := by
      unfold getAccount
      rw [hacc]
      unfold balanceUpdateOrder
      by_cases hlt : F < T
      · rw [if_pos hlt]
        show findAccount (updateBalance (updateBalance db.accounts F (-X)) T X) T = _
        rw [findAccount_updateBalance_self, findAccount_updateBalance_ne _ _ _ _ (Ne.symm hFT),
          (show findAccount db.accounts T = some t from ht), Option.map_some']
      · rw [if_neg hlt]
        show findAccount (updateBalance (updateBalance db.accounts T X) F (-X)) T = _
        rw [findAccount_updateBalance_ne _ _ _ _ (Ne.symm hFT), findAccount_updateBalance_self,
          (show findAccount db.accounts T = some t from ht), Option.map_some']
    refine ⟨⟨res, ?_⟩, ?_, ?_⟩ <;> simp only [TransferTX, hbody]
    · exact hfind_f
    · exact hfind_t
  | error e =>
    exfalso
    unfold transferTxBody createTransfer createEntry at hbody
    dsimp only at hbody
    split at hbody
    · rename_i e1 heq
      unfold balanceUpdateOrder at heq
      by_cases hlt : F < T
      · rw [if_pos hlt] at heq
        exact applyBalanceUpdates_pair_not_error heq hf hfb hfb2 (Ne.symm hFT) ht h3 h4
      · rw [if_neg hlt] at heq
        exact applyBalanceUpdates_pair_not_error heq ht h3 h4 hFT hf hfb hfb2
    · rename_i db4 happ
      split at hbody
      · exact absurd hbody (by simp)
      · rename_i hnomatch
        have hdb4 := applyBalanceUpdates_ok _ _ _ happ
        have hga : getAccount db4 F =
            findAccount (updateMany db.accounts (balanceUpdateOrder ⟨F, T, X⟩)) F := by
          rw [hdb4]
          rfl
        have hgt : getAccount db4 T =
            findAccount (updateMany db.accounts (balanceUpdateOrder ⟨F, T, X⟩)) T := by
          rw [hdb4]
          rfl
        have hfindF : getAccount db4 F = some { f with balance := f.balance + -X } := by
          rw [hga]
          unfold balanceUpdateOrder
          by_cases hlt : F < T
          · rw [if_pos hlt]
            show findAccount (updateBalance (updateBalance db.accounts F (-X)) T X) F = _
            rw [findAccount_updateBalance_ne _ _ _ _ hFT, findAccount_updateBalance_self,
              (show findAccount db.accounts F = some f from hf), Option.map_some']
          · rw [if_neg hlt]
            show findAccount (updateBalance (updateBalance db.accounts T X) F (-X)) F = _
            rw [findAccount_updateBalance_self, findAccount_updateBalance_ne _ _ _ _ hFT,
              (show findAccount db.accounts F = some f from hf), Option.map_some']
        have hfindT : getAccount db4 T = some { t with balance := t.balance + X } := by
          rw [hgt]
          unfold balanceUpdateOrder
          by_cases hlt : F < T
          · rw [if_pos hlt]
            show findAccount (updateBalance (updateBalance db.accounts F (-X)) T X) T = _
            rw [findAccount_updateBalance_self,
              findAccount_updateBalance_ne _ _ _ _ (Ne.symm hFT),
              (show findAccount db.accounts T = some t from ht), Option.map_some']
          · rw [if_neg hlt]
            show findAccount (updateBalance (updateBalance db.accounts T X) F (-X)) T = _
            rw [findAccount_updateBalance_ne _ _ _ _ (Ne.symm hFT),
              findAccount_updateBalance_self,
              (show findAccount db.accounts T = some t from ht), Option.map_some']
        exact hnomatch _ _ hfindF hfindT

end Db

namespace Db

theorem exec_mixed (F T X : Int) (hFT : F ≠ T) (hX : 0 < X) :
    ∀ (ps : List TransferTxParams) (db : DB) (f t : Account),
      (∀ p ∈ ps, p = ⟨F, T, X⟩ ∨ p = ⟨T, F, X⟩) →
      getAccount db F = some f → getAccount db T = some t →
      minInt64 + (countParam ⟨F, T, X⟩ ps : Int) * X ≤ f.balance →
      f.balance + (countParam ⟨T, F, X⟩ ps : Int) * X ≤ maxInt64 →
      minInt64 + (countParam ⟨T, F, X⟩ ps : Int) * X ≤ t.balance →
      t.balance + (countParam ⟨F, T, X⟩ ps : Int) * X ≤ maxInt64 →
      (∀ r ∈ (execAllResults db ps).1, ∃ res, r = Except.ok res) ∧
      (∃ f1, getAccount (execAllResults db ps).2 F = some f1 ∧
        f1.balance = f.balance +
          ((countParam ⟨T, F, X⟩ ps : Int) - (countParam ⟨F, T, X⟩ ps : Int)) * X) ∧
      (∃ t1, getAccount (execAllResults db ps).2 T = some t1 ∧
        t1.balance = t.balance +
          ((countParam ⟨F, T, X⟩ ps : Int) - (countParam ⟨T, F, X⟩ ps : Int)) * X) := by
  intro ps
  induction ps with
  | nil =>
    intro db f t _ hf ht _ _ _ _
    exact ⟨by simp [execAllResults], ⟨f, hf, by simp [countParam]⟩,
      ⟨t, ht, by simp [countParam]⟩⟩
  | cons p rest ih =>
    intro db f t hmem hf ht hc1 hc2 hc3 hc4
    have hpne : (⟨F, T, X⟩ : TransferTxParams) ≠ ⟨T, F, X⟩ := fun hh =>
      hFT (congrArg TransferTxParams.fromAccountID hh)
    have hpne2 : (⟨T, F, X⟩ : TransferTxParams) ≠ ⟨F, T, X⟩ := fun hh => hpne hh.symm
    have hXnn : 0 ≤ X := le_of_lt hX
    have hprod_a : (0 : Int) ≤ (countParam (⟨F, T, X⟩ : TransferTxParams) rest : Int) * X :=
      mul_nonneg (Nat.cast_nonneg _) hXnn
    have hprod_b : (0 : Int) ≤ (countParam (⟨T, F, X⟩ : TransferTxParams) rest : Int) * X :=
      mul_nonneg (Nat.cast_nonneg _) hXnn
    have hmem2 : ∀ q ∈ rest, q = ⟨F, T, X⟩ ∨ q = ⟨T, F, X⟩ := fun q hq =>
      hmem q (List.mem_cons_of_mem _ hq)
    rcases hmem p (List.mem_cons_self p rest) with hp | hp
    · subst hp
      have hcf : countParam (⟨F, T, X⟩ : TransferTxParams) (⟨F, T, X⟩ :: rest) =
          1 + countParam ⟨F, T, X⟩ rest := by simp [countParam]
      have hct : countParam (⟨T, F, X⟩ : TransferTxParams) (⟨F, T, X⟩ :: rest) =
          countParam ⟨T, F, X⟩ rest := by simp [countParam, hpne]
      rw [hcf] at hc1 hc4
      rw [hct] at hc2 hc3
      push_cast at hc1 hc2 hc3 hc4
      have hexpand : ∀ y : Int, (1 + y) * X = X + y * X := fun y => by ring
      rw [hexpand] at hc1 hc4
      have hs1 : minInt64 ≤ f.balance - X := by linarith
      have hs2 : f.balance - X ≤ maxInt64 := by linarith
      have hs3 : minInt64 ≤ t.balance + X := by linarith
      have hs4 : t.balance + X ≤ maxInt64 := by linarith
      obtain ⟨⟨res, hres⟩, hfa, hta⟩ := transferTX_ok_of db F T X f t hFT hf ht hs1 hs2 hs3 hs4
      have hihc1 : minInt64 +
          (countParam (⟨F, T, X⟩ : TransferTxParams) rest : Int) * X ≤ f.balance - X := by
        linarith
      have hihc2 : (f.balance - X) +
          (countParam (⟨T, F, X⟩ : TransferTxParams) rest : Int) * X ≤ maxInt64 := by
        linarith
      have hihc3 : minInt64 +
          (countParam (⟨T, F, X⟩ : TransferTxParams) rest : Int) * X ≤ t.balance + X := by
        linarith
      have hihc4 : (t.balance + X) +
          (countParam (⟨F, T, X⟩ : TransferTxParams) rest : Int) * X ≤ maxInt64 := by
        linarith
      obtain ⟨hall, ⟨f2, hf2, hf2b⟩, ⟨t2, ht2, ht2b⟩⟩ :=
        ih (TransferTX db ⟨F, T, X⟩).2 { f with balance := f.balance - X }
          { t with balance := t.balance + X } hmem2 hfa hta hihc1 hihc2 hihc3 hihc4
      refine ⟨?_, ⟨f2, hf2, ?_⟩, ⟨t2, ht2, ?_⟩⟩
      · intro r hr
        have hsplit : (execAllResults db (⟨F, T, X⟩ :: rest)).1 =
            (TransferTX db ⟨F, T, X⟩).1 ::
              (execAllResults (TransferTX db ⟨F, T, X⟩).2 rest).1 := rfl
        rw [hsplit] at hr
        rcases List.mem_cons.mp hr with hr1 | hr2
        · exact ⟨res, by rw [hr1, hres]⟩
        · exact hall r hr2
      · rw [hf2b, hcf, hct]
        show f.balance - X + ((countParam (⟨T, F, X⟩ : TransferTxParams) rest : Int) -
          (countParam (⟨F, T, X⟩ : TransferTxParams) rest : Int)) * X = _
        push_cast
        ring
      · rw [ht2b, hcf, hct]
        show t.balance + X + ((countParam (⟨F, T, X⟩ : TransferTxParams) rest : Int) -
          (countParam (⟨T, F, X⟩ : TransferTxParams) rest : Int)) * X = _
        push_cast
        ring
    · subst hp
      have hcf : countParam (⟨F, T, X⟩ : TransferTxParams) (⟨T, F, X⟩ :: rest) =
          countParam ⟨F, T, X⟩ rest := by simp [countParam, hpne2]
      have hct : countParam (⟨T, F, X⟩ : TransferTxParams) (⟨T, F, X⟩ :: rest) =
          1 + countParam ⟨T, F, X⟩ rest := by simp [countParam]
      rw [hcf] at hc1 hc4
      rw [hct] at hc2 hc3
      push_cast at hc1 hc2 hc3 hc4
      have hexpand : ∀ y : Int, (1 + y) * X = X + y * X := fun y => by ring
      rw [hexpand] at hc2 hc3
      have hs1 : minInt64 ≤ t.balance - X := by linarith
      have hs2 : t.balance - X ≤ maxInt64 := by linarith
      have hs3 : minInt64 ≤ f.balance + X := by linarith
      have hs4 : f.balance + X ≤ maxInt64 := by linarith
      obtain ⟨⟨res, hres⟩, hta, hfa⟩ :=
        transferTX_ok_of db T F X t f (Ne.symm hFT) ht hf hs1 hs2 hs3 hs4
      have hihc1 : minInt64 +
          (countParam (⟨F, T, X⟩ : TransferTxParams) rest : Int) * X ≤ f.balance + X := by
        linarith
      have hihc2 : (f.balance + X) +
          (countParam (⟨T, F, X⟩ : TransferTxParams) rest : Int) * X ≤ maxInt64 := by
        linarith
      have hihc3 : minInt64 +
          (countParam (⟨T, F, X⟩ : TransferTxParams) rest : Int) * X ≤ t.balance - X := by
        linarith
      have hihc4 : (t.balance - X) +
          (countParam (⟨F, T, X⟩ : TransferTxParams) rest : Int) * X ≤ maxInt64 := by
        linarith
      obtain ⟨hall, ⟨f2, hf2, hf2b⟩, ⟨t2, ht2, ht2b⟩⟩ :=
        ih (TransferTX db ⟨T, F, X⟩).2 { f with balance := f.balance + X }
          { t with balance := t.balance - X } hmem2 hfa hta hihc1 hihc2 hihc3 hihc4
      refine ⟨?_, ⟨f2, hf2, ?_⟩, ⟨t2, ht2, ?_⟩⟩
      · intro r hr
        have hsplit : (execAllResults db (⟨T, F, X⟩ :: rest)).1 =
            (TransferTX db ⟨T, F, X⟩).1 ::
              (execAllResults (TransferTX db ⟨T, F, X⟩).2 rest).1 := rfl
        rw [hsplit] at hr
        rcases List.mem_cons.mp hr with hr1 | hr2
        · exact ⟨res, by rw [hr1, hres]⟩
        · exact hall r hr2
      · rw [hf2b, hcf, hct]
        show f.balance + X + ((countParam (⟨T, F, X⟩ : TransferTxParams) rest : Int) -
          (countParam (⟨F, T, X⟩ : TransferTxParams) rest : Int)) * X = _
        push_cast
        ring
      · rw [ht2b, hcf, hct]
        show t.balance - X + ((countParam (⟨F, T, X⟩ : TransferTxParams) rest : Int) -
          (countParam (⟨T, F, X⟩ : TransferTxParams) rest : Int)) * X = _
        push_cast
        ring

end Db

namespace Db

/-- Claim C6: N transfer invocations between the same two accounts F and
T, half F-to-T and half T-to-F with equal amounts, run in any
interleaving (serialization) order: every one of the N invocations
completes with a successful result — none fails, none blocks, as each
serialization runs to completion under the engine's deterministic lock
order — and the net committed balance change of both accounts is zero.
The balance-range hypotheses keep every intermediate balance inside the
bigint column range. -/
theorem transferTX_deadlock_free_net_zero (db : DB) (F T X : Int) (k : Nat)
    (ps : List TransferTxParams) (f t : Account)
    (hFT : F ≠ T) (hX : 0 < X)
    (hmem : ∀ p ∈ ps, p = ⟨F, T, X⟩ ∨ p = ⟨T, F, X⟩)
    (hcf : countParam ⟨F, T, X⟩ ps = k) (hct : countParam ⟨T, F, X⟩ ps = k)
    (hf : getAccount db F = some f) (ht : getAccount db T = some t)
    (hfb1 : minInt64 + (k : Int) * X ≤ f.balance)
    (hfb2 : f.balance + (k : Int) * X ≤ maxInt64)
    (htb1 : minInt64 + (k : Int) * X ≤ t.balance)
    (htb2 : t.balance + (k : Int) * X ≤ maxInt64) :
    (∀ r ∈ (execAllResults db ps).1, ∃ res, r = Except.ok res) ∧
    (∃ f1, getAccount (execAllResults db ps).2 F = some f1 ∧ f1.balance = f.balance) ∧
    (∃ t1, getAccount (execAllResults db ps).2 T = some t1 ∧ t1.balance = t.balance) := by
  obtain ⟨hall, ⟨f1, hf1, hf1b⟩, ⟨t1, ht1, ht1b⟩⟩ :=
    exec_mixed F T X hFT hX ps db f t hmem hf ht
      (by rw [hcf]; exact hfb1) (by rw [hct]; exact hfb2)
      (by rw [hct]; exact htb1) (by rw [hcf]; exact htb2)
  refine ⟨hall, ⟨f1, hf1, ?_⟩, ⟨t1, ht1, ?_⟩⟩
  · rw [hf1b, hcf, hct]
    simp
  · rw [ht1b, hcf, hct]
    simp

/-- Witness for the deadlock-freedom theorem: one transfer in each
direction between the two sample accounts, interleaved, all succeed and
the balances return to their initial values. -/
theorem transferTX_deadlock_free_net_zero_witness :
    (∀ r ∈ (execAllResults sampleDb [⟨1, 2, 10⟩, ⟨2, 1, 10⟩]).1, ∃ res, r = Except.ok res) ∧
    (∃ f1, getAccount (execAllResults sampleDb [⟨1, 2, 10⟩, ⟨2, 1, 10⟩]).2 1 = some f1 ∧
      f1.balance = 100) ∧
    (∃ t1, getAccount (execAllResults sampleDb [⟨1, 2, 10⟩, ⟨2, 1, 10⟩]).2 2 = some t1 ∧
      t1.balance = 50) :=
  transferTX_deadlock_free_net_zero sampleDb 1 2 10 1 [⟨1, 2, 10⟩, ⟨2, 1, 10⟩]
    ⟨1, "alice", 100, "USD"⟩ ⟨2, "bob", 50, "USD"⟩
    (by decide) (by decide) (by decide) (by decide) (by decide) (by rfl) (by rfl)
    (by decide) (by decide) (by decide) (by decide)

end Db

namespace Api

open Db

theorem validAccount_none {db : DB} {id : Int} {cur : String}
    (h : getAccount db id = none) :
    validAccount db id cur = Except.error ApiStatus.notFound := by
  simp only [validAccount, h]

theorem validAccount_mismatch {db : DB} {id : Int} {cur : String} {a : Account}
    (h : getAccount db id = some a) (hc : a.currency ≠ cur) :
    validAccount db id cur = Except.error ApiStatus.badRequest := by
  simp only [validAccount, h]
  rw [if_pos hc]

theorem validAccount_found {db : DB} {id : Int} {cur : String} {a : Account}
    (h : getAccount db id = some a) (hc : a.currency = cur) :
    validAccount db id cur = Except.ok a := by
  simp only [validAccount, h]
  rw [if_neg (not_not_intro hc)]

theorem validAccount_ok_inv {db : DB} {id : Int} {cur : String} {a : Account}
    (h : validAccount db id cur = Except.ok a) :
    getAccount db id = some a ∧ a.currency = cur := by
  unfold validAccount at h
  split at h
  · exact absurd h (by simp)
  · rename_i a0 hga
    split at h
    · exact absurd h (by simp)
    · rename_i hcur
      injection h with h1
      subst h1
      exact ⟨hga, not_not.mp hcur⟩

theorem createTransfer_nobind {db : DB} {req : TransferRequest} {user : String}
    (h : ¬ bindingValid req) :
    createTransfer db req user = ⟨ApiStatus.badRequest, none, db, none⟩ := by
  unfold createTransfer
  rw [if_pos h]

theorem createTransfer_fromInvalid {db : DB} {req : TransferRequest} {user : String}
    {st : ApiStatus} (hbind : bindingValid req)
    (h : validAccount db req.fromAccountID req.currency = Except.error st) :
    createTransfer db req user = ⟨st, none, db, none⟩ := by
  unfold createTransfer
  rw [if_neg (not_not_intro hbind)]
  simp only [h]

theorem createTransfer_ownerMismatch {db : DB} {req : TransferRequest} {user : String}
    {a : Account} (hbind : bindingValid req)
    (h : validAccount db req.fromAccountID req.currency = Except.ok a)
    (how : a.owner ≠ user) :
    createTransfer db req user = ⟨ApiStatus.unauthorized, none, db, none⟩ := by
  unfold createTransfer
  rw [if_neg (not_not_intro hbind)]
  simp only [h]
  rw [if_pos how]

theorem createTransfer_toInvalid {db : DB} {req : TransferRequest} {user : String}
    {a : Account} {st : ApiStatus} (hbind : bindingValid req)
    (h : validAccount db req.fromAccountID req.currency = Except.ok a)
    (how : a.owner = user)
    (h2 : validAccount db req.toAccountID req.currency = Except.error st) :
    createTransfer db req user = ⟨st, none, db, none⟩ := by
  unfold createTransfer
  rw [if_neg (not_not_intro hbind)]
  simp only [h]
  rw [if_neg (not_not_intro how)]
  simp only [h2]

theorem createTransfer_engine {db : DB} {req : TransferRequest} {user : String}
    {a b : Account} (hbind : bindingValid req)
    (h : validAccount db req.fromAccountID req.currency = Except.ok a)
    (how : a.owner = user)
    (h2 : validAccount db req.toAccountID req.currency = Except.ok b) :
    (createTransfer db req user).engineCall =
      some ⟨req.fromAccountID, req.toAccountID, req.amount⟩ := by
  unfold createTransfer
  rw [if_neg (not_not_intro hbind)]
  simp only [h]
  rw [if_neg (not_not_intro how)]
  simp only [h2]
  cases hTX : TransferTX db ⟨req.fromAccountID, req.toAccountID, req.amount⟩ with
  | mk r d => cases r <;> rfl

theorem createTransfer_engine_inv {db : DB} {req : TransferRequest} {user : String}
    {p : TransferTxParams}
    (h : (createTransfer db req user).engineCall = some p) :
    bindingValid req ∧
    ∃ a b, validAccount db req.fromAccountID req.currency = Except.ok a ∧
      a.owner = user ∧
      validAccount db req.toAccountID req.currency = Except.ok b ∧
      p = ⟨req.fromAccountID, req.toAccountID, req.amount⟩ := by
  unfold createTransfer at h
  split at h
  · exact absurd h (by simp)
  · rename_i hbind
    split at h
    · exact absurd h (by simp)
    · rename_i a hva
      split at h
      · exact absurd h (by simp)
      · rename_i howner
        split at h
        · exact absurd h (by simp)
        · rename_i b hvb
          refine ⟨not_not.mp hbind, a, b, hva, not_not.mp howner, hvb, ?_⟩
          dsimp only at h
          split at h
          · rename_i res db1 hTX
            injection h with h1
            exact h1.symm
          · rename_i e db1 hTX
            injection h with h1
            exact h1.symm

end Api

namespace Api

open Db

/-- Claim C7 counterexample: a self-transfer request (from = to = 1) that
passes binding, existence, currency and ownership validation is not
rejected by the transfer handler — TransferTX is invoked with identical
account ids, and the call even returns 200. -/
theorem selfTransfer_reaches_engine :
    (createTransfer apiDbSelf ⟨1, 1, 10, "USD"⟩ "alice").engineCall = some ⟨1, 1, 10⟩ ∧
    (createTransfer apiDbSelf ⟨1, 1, 10, "USD"⟩ "alice").status = ApiStatus.ok := by
  decide

/-- Claim C7 amended: the transfer handler performs no self-transfer
check; a request with fromAccountID = toAccountID that passes binding
validation, whose account exists with the request currency and is owned
by the authenticated user, is passed on to the engine with identical
account ids. -/
theorem selfTransfer_passes_through (db : DB) (req : TransferRequest) (user : String)
    (a : Account)
    (hself : req.fromAccountID = req.toAccountID)
    (hbind : bindingValid req)
    (hacct : getAccount db req.fromAccountID = some a)
    (hcur : a.currency = req.currency)
    (howner : a.owner = user) :
    (createTransfer db req user).engineCall =
      some ⟨req.fromAccountID, req.toAccountID, req.amount⟩ := by
  have hva : validAccount db req.fromAccountID req.currency = Except.ok a :=
    validAccount_found hacct hcur
  have hva2 : validAccount db req.toAccountID req.currency = Except.ok a := by
    rw [← hself]
    exact hva
  exact createTransfer_engine hbind hva howner hva2

/-- Witness for the amended self-transfer theorem at the concrete store. -/
theorem selfTransfer_passes_through_witness :
    (createTransfer apiDbSelf ⟨1, 1, 10, "USD"⟩ "alice").engineCall = some ⟨1, 1, 10⟩ :=
  selfTransfer_passes_through apiDbSelf ⟨1, 1, 10, "USD"⟩ "alice" ⟨1, "alice", 100, "USD"⟩
    rfl (by decide) rfl rfl rfl

/-- Claim C8 counterexample: in a request whose to-account (id 2) does
not exist, the response is 400 bad request — the from-account currency
mismatch is detected first — not a not-found condition; the engine is
still not invoked. -/
theorem missingAccount_surfaced_as_badRequest :
    getAccount apiDbSelf 2 = none ∧
    (createTransfer apiDbSelf ⟨1, 2, 10, "EUR"⟩ "alice").status = ApiStatus.badRequest ∧
    (createTransfer apiDbSelf ⟨1, 2, 10, "EUR"⟩ "alice").status ≠ ApiStatus.notFound ∧
    (createTransfer apiDbSelf ⟨1, 2, 10, "EUR"⟩ "alice").engineCall = none := by
  decide

/-- Claim C8 amended: when either referenced account does not exist the
engine is never invoked and the operation never succeeds; the response is
the not-found condition when the from-account is missing, or when the
from-account passes its currency and ownership checks and the to-account
is missing; a failure detected earlier (binding, from-currency,
ownership) is surfaced with its own status instead. -/
theorem missingAccount_behavior (db : DB) (req : TransferRequest) (user : String)
    (hmiss : getAccount db req.fromAccountID = none ∨ getAccount db req.toAccountID = none) :
    (createTransfer db req user).engineCall = none ∧
    (createTransfer db req user).status ≠ ApiStatus.ok ∧
    (bindingValid req → getAccount db req.fromAccountID = none →
      (createTransfer db req user).status = ApiStatus.notFound) ∧
    (bindingValid req → ∀ a, getAccount db req.fromAccountID = some a →
      a.currency = req.currency → a.owner = user →
      (createTransfer db req user).status = ApiStatus.notFound) := by
  by_cases hbind : bindingValid req
  · cases hfrom : getAccount db req.fromAccountID with
    | none =>
      rw [createTransfer_fromInvalid hbind (validAccount_none hfrom)]
      exact ⟨rfl, fun h => ApiStatus.noConfusion h, fun _ _ => rfl,
        fun _ a ha _ _ => Option.noConfusion ha⟩
    | some a =>
      have hto : getAccount db req.toAccountID = none := by
        rcases hmiss with hm | hm
        · exact Option.noConfusion (hm.symm.trans hfrom)
        · exact hm
      by_cases hcur : a.currency = req.currency
      · by_cases howner : a.owner = user
        · rw [createTransfer_toInvalid hbind (validAccount_found hfrom hcur) howner
            (validAccount_none hto)]
          exact ⟨rfl, fun h => ApiStatus.noConfusion h,
            fun _ hnone => Option.noConfusion hnone,
            fun _ a2 _ _ _ => rfl⟩
        · rw [createTransfer_ownerMismatch hbind (validAccount_found hfrom hcur) howner]
          refine ⟨rfl, fun h => ApiStatus.noConfusion h,
            fun _ hnone => Option.noConfusion hnone,
            fun _ a2 ha2 _ how2 => ?_⟩
          have haa : a = a2 := Option.some.inj ha2
          exact absurd (show a.owner = user by rw [haa]; exact how2) howner
      · rw [createTransfer_fromInvalid hbind (validAccount_mismatch hfrom hcur)]
        refine ⟨rfl, fun h => ApiStatus.noConfusion h,
          fun _ hnone => Option.noConfusion hnone,
          fun _ a2 ha2 hc2 _ => ?_⟩
        have haa : a = a2 := Option.some.inj ha2
        exact absurd (show a.currency = req.currency by rw [haa]; exact hc2) hcur
  · rw [createTransfer_nobind hbind]
    exact ⟨rfl, fun h => ApiStatus.noConfusion h,
      fun hb => absurd hb hbind, fun hb => absurd hb hbind⟩

/-- Witness for the amended missing-account theorem: the from-account
does not exist, the engine is not invoked. -/
theorem missingAccount_behavior_witness :
    (createTransfer apiDbSelf ⟨3, 1, 10, "USD"⟩ "alice").engineCall = none :=
  (missingAccount_behavior apiDbSelf ⟨3, 1, 10, "USD"⟩ "alice" (Or.inl (by rfl))).1

end Api

namespace Db

theorem createAccount_ok_inv {db : DB} {p : CreateAccountParams} {a : Account} {db1 : DB}
    (h : Db.createAccount db p = Except.ok (a, db1)) :
    a.owner = p.owner ∧ a.balance = p.balance ∧ a.currency = p.currency := by
  unfold Db.createAccount at h
  split at h
  · exact absurd h (by simp)
  · injection h with h1
    injection h1 with h2 h3
    rw [← h2]
    exact ⟨rfl, rfl, rfl⟩

end Db

namespace Api

open Db

/-- Claim C9 counterexample: the to-account's currency (EUR) differs from
the request currency (USD), yet the handler responds 401 unauthorized —
the from-account ownership check fails first — not 400 bad request. -/
theorem currencyMismatch_not_badRequest :
    (getAccount apiDbMixed 2).map Account.currency = some "EUR" ∧
    (createTransfer apiDbMixed ⟨1, 2, 10, "USD"⟩ "alice").status = ApiStatus.unauthorized ∧
    (createTransfer apiDbMixed ⟨1, 2, 10, "USD"⟩ "alice").status ≠ ApiStatus.badRequest := by
  decide

/-- Claim C9 amended: every transfer admitted by the handler is between
two existing accounts whose currencies both equal the request currency
(hence equal each other); when either currency differs, TransferTX is
never invoked, and the response is 400 bad request when the mismatch is
what the handler detects (a from-account mismatch, or a to-account
mismatch after the from-account passed currency and ownership checks) —
an ownership failure detected first is surfaced as 401 instead. -/
theorem transfer_currency_invariant (db : DB) (req : TransferRequest) (user : String) :
    (∀ p, (createTransfer db req user).engineCall = some p →
      ∃ fa ta, getAccount db req.fromAccountID = some fa ∧
        getAccount db req.toAccountID = some ta ∧
        fa.currency = req.currency ∧ ta.currency = req.currency ∧
        p = ⟨req.fromAccountID, req.toAccountID, req.amount⟩) ∧
    (∀ fa, getAccount db req.fromAccountID = some fa → fa.currency ≠ req.currency →
      (createTransfer db req user).engineCall = none ∧
      (bindingValid req → (createTransfer db req user).status = ApiStatus.badRequest)) ∧
    (∀ fa ta, getAccount db req.fromAccountID = some fa → fa.currency = req.currency →
      fa.owner = user → getAccount db req.toAccountID = some ta →
      ta.currency ≠ req.currency →
      (createTransfer db req user).engineCall = none ∧
      (bindingValid req → (createTransfer db req user).status = ApiStatus.badRequest)) := by
  refine ⟨?_, ?_, ?_⟩
  · intro p hp
    obtain ⟨hbind, a, b, hva, howner, hvb, hpeq⟩ := createTransfer_engine_inv hp
    obtain ⟨hga, hca⟩ := validAccount_ok_inv hva
    obtain ⟨hgb, hcb⟩ := validAccount_ok_inv hvb
    exact ⟨a, b, hga, hgb, hca, hcb, hpeq⟩
  · intro fa hfa hcur
    by_cases hbind : bindingValid req
    · rw [createTransfer_fromInvalid hbind (validAccount_mismatch hfa hcur)]
      exact ⟨rfl, fun _ => rfl⟩
    · rw [createTransfer_nobind hbind]
      exact ⟨rfl, fun hb => absurd hb hbind⟩
  · intro fa ta hfa hcur howner hta hcur2
    by_cases hbind : bindingValid req
    · rw [createTransfer_toInvalid hbind (validAccount_found hfa hcur) howner
        (validAccount_mismatch hta hcur2)]
      exact ⟨rfl, fun _ => rfl⟩
    · rw [createTransfer_nobind hbind]
      exact ⟨rfl, fun hb => absurd hb hbind⟩

/-- Witness for the currency-invariant theorem at a concrete admitted
transfer. -/
theorem transfer_currency_invariant_witness :
    ∃ fa ta, getAccount sampleDb 1 = some fa ∧ getAccount sampleDb 2 = some ta ∧
      fa.currency = "USD" ∧ ta.currency = "USD" ∧
      (⟨1, 2, 10⟩ : TransferTxParams) = ⟨1, 2, 10⟩ :=
  (transfer_currency_invariant sampleDb ⟨1, 2, 10, "USD"⟩ "alice").1 ⟨1, 2, 10⟩ (by decide)

/-- Claim C10: every account created through the createAccount handler is
created with balance exactly 0, owner equal to the authenticated user's
username from the access-token payload, and the currency from the request
body — which can supply nothing but the currency. -/
theorem createAccount_owner_balance (db : DB) (reqCurrency user : String) :
    (∀ p, (createAccountHandler db reqCurrency user).createCall = some p →
      p.owner = user ∧ p.balance = 0 ∧ p.currency = reqCurrency) ∧
    (∀ a, (createAccountHandler db reqCurrency user).result = some a →
      a.owner = user ∧ a.balance = 0 ∧ a.currency = reqCurrency) := by
  unfold createAccountHandler
  split
  · exact ⟨fun p hp => Option.noConfusion hp, fun a ha => Option.noConfusion ha⟩
  · dsimp only
    constructor
    · intro p hp
      split at hp
      · injection hp with h1
        rw [← h1]
        exact ⟨rfl, rfl, rfl⟩
      · injection hp with h1
        rw [← h1]
        exact ⟨rfl, rfl, rfl⟩
    · intro a ha
      split at ha
      · exact Option.noConfusion ha
      · rename_i pair heq
        obtain ⟨account, db1⟩ := pair
        injection ha with h1
        obtain ⟨ho, hb, hc⟩ := Db.createAccount_ok_inv heq
        rw [← h1]
        exact ⟨ho, hb, hc⟩

/-- Witness for the createAccount theorem: concrete creation for user
dana with a supported currency. -/
theorem createAccount_owner_balance_witness :
    (⟨"dana", "USD", 0⟩ : CreateAccountParams).owner = "dana" ∧
    (⟨"dana", "USD", 0⟩ : CreateAccountParams).balance = 0 ∧
    (⟨"dana", "USD", 0⟩ : CreateAccountParams).currency = "USD" :=
  (createAccount_owner_balance ledgerDb "USD" "dana").1 ⟨"dana", "USD", 0⟩ (by decide)

end Api
